import Mathlib

/-!
Verification of the AquaWatch ingestion worker (`backend/arduino_worker.py`).

The worker is embedded shallowly:
* Python strings become `List Char`; `str.split()` becomes `splitWS`,
  `str.lower()` becomes `lowerStr`, `s.replace(':', '')` becomes
  `stripColons`, `str.strip()` becomes `pyStrip`.
* Python floats become `ℚ`; the built-in `float()` conversion is modelled
  by `pyFloat` on the plain decimal grammar (optional sign, digits,
  optional fraction, optional exponent).  The exotic spellings accepted by
  CPython (digit-group underscores, `inf`, `nan`) are outside the model
  and evaluate to `none`; no theorem below exercises them.
* `requests.post` outcomes are abstracted by an oracle `ℕ → Outcome`
  giving each attempt's result; sleeps and posts are recorded in a trace
  of `NetAct` actions so that timing claims are statable.
* Logging calls that the claims mention are recorded as `LogEvent`s.
* The supervisor's main loop body becomes the step function `loopStep`
  over the consecutive-failure counter, driven by `LoopEvent`s describing
  what the environment did in one iteration.
-/

namespace Aquawatch

/-- Python strings, as lists of characters. -/
abbrev Str := List Char

/-- The whitespace characters recognised by Python's `str.split()` /
`str.strip()` (space, tab, newline, carriage return, vertical tab,
form feed). -/
def pyIsSpace (c : Char) : Bool :=
  c.toNat = 32 || c.toNat = 9 || c.toNat = 10 || c.toNat = 13 ||
  c.toNat = 11 || c.toNat = 12

/-- ASCII lower-casing of one character, as `str.lower()` does on the
characters that occur in sensor lines. -/
def lowerChar (c : Char) : Char :=
  if 65 ≤ c.toNat && c.toNat ≤ 90 then Char.ofNat (c.toNat + 32) else c

/-- `str.lower()`. -/
def lowerStr (s : Str) : Str := s.map lowerChar

/-- ASCII digit test (the digits accepted by `float()`). -/
def isDig (c : Char) : Bool := 48 ≤ c.toNat && c.toNat ≤ 57

/-- Auxiliary for `splitWS`: `acc` holds the current word reversed. -/
def splitWSAux : Str → Str → List Str
  | [], acc => if acc.isEmpty then [] else [acc.reverse]
  | c :: cs, acc =>
      if pyIsSpace c then
        if acc.isEmpty then splitWSAux cs []
        else acc.reverse :: splitWSAux cs []
      else splitWSAux cs (c :: acc)

/-- Python's `line.split()`: split on runs of whitespace, dropping empty
pieces. -/
def splitWS (s : Str) : List Str := splitWSAux s []

/-- `part.replace(':', '')`: delete every colon. -/
def stripColons (s : Str) : Str := s.filter (fun c => c != ':')

/-- Python's `s.strip()`. -/
def pyStrip (s : Str) : Str :=
  ((s.dropWhile pyIsSpace).reverse.dropWhile pyIsSpace).reverse

/-- Does `hay` start with `needle`? -/
def leadsWith : Str → Str → Bool
  | [], _ => true
  | _ :: _, [] => false
  | a :: as, b :: bs => a == b && leadsWith as bs

/-- Python's substring test `needle in hay`. -/
def containsSub (needle : Str) : Str → Bool
  | [] => needle.isEmpty
  | c :: rest => leadsWith needle (c :: rest) || containsSub needle rest

/-- Greedy digit scan: longest digit run at the front, and the rest. -/
def takeDigits : Str → Str × Str
  | [] => ([], [])
  | c :: r =>
      if isDig c then
        let p := takeDigits r
        (c :: p.1, p.2)
      else ([], c :: r)

/-- Numeric value of a digit run. -/
def digitsVal (ds : Str) : ℕ := ds.foldl (fun a c => 10 * a + (c.toNat - 48)) 0

/-- Consume an optional leading sign; `true` means negative. -/
def splitSign : Str → Bool × Str
  | [] => (false, [])
  | c :: r =>
      if c = '+' then (false, r)
      else if c = '-' then (true, r)
      else (false, c :: r)

/-- Apply a sign flag. -/
def signApply (neg : Bool) (v : ℚ) : ℚ := if neg then -v else v

/-- Exponent clause of `float()`: sign, at least one digit, end of input. -/
def pyFloatExpPart (neg : Bool) (mant : ℚ) (r : Str) : Option ℚ :=
  let p := splitSign r
  let d := takeDigits p.2
  if d.1.isEmpty || !d.2.isEmpty then none
  else
    let e := digitsVal d.1
    some (signApply neg (if p.1 then mant / 10 ^ e else mant * 10 ^ e))

/-- After the mantissa: either the end of the string or an exponent. -/
def pyFloatAfterMant (neg : Bool) (mant : ℚ) : Str → Option ℚ
  | [] => some (signApply neg mant)
  | c :: r => if c = 'e' ∨ c = 'E' then pyFloatExpPart neg mant r else none

/-- Model of Python's built-in `float(s)` on the plain decimal grammar:
`[sign] digits [. digits] [(e|E) [sign] digits]` with at least one
mantissa digit.  Anything else (including `inf` / `nan` / underscore
spellings) is `none`, standing for the `ValueError` the parser catches. -/
def pyFloat (s : Str) : Option ℚ :=
  let p := splitSign s
  let ip := takeDigits p.2
  match ip.2 with
  | c :: r2 =>
      if c = '.' then
        let fp := takeDigits r2
        if ip.1.isEmpty && fp.1.isEmpty then none
        else
          pyFloatAfterMant p.1
            ((digitsVal ip.1 : ℚ) + (digitsVal fp.1 : ℚ) / 10 ^ fp.1.length) fp.2
      else if ip.1.isEmpty then none
      else pyFloatAfterMant p.1 (digitsVal ip.1 : ℚ) (c :: r2)
  | [] =>
      if ip.1.isEmpty then none
      else pyFloatAfterMant p.1 (digitsVal ip.1 : ℚ) []

/-- Plain decimal numerals: one or more digits, optionally followed by a
point and one or more digits.  These are the shapes the well-formed-line
claim quantifies over. -/
def decNum (s : Str) : Bool :=
  let p := takeDigits s
  !p.1.isEmpty &&
    (p.2.isEmpty ||
      (match p.2 with
       | c :: r2 =>
           decide (c = '.') &&
             (let f := takeDigits r2
              !f.1.isEmpty && f.2.isEmpty)
       | [] => false))

/-- The rational value denoted by a plain decimal numeral. -/
def decVal (s : Str) : ℚ :=
  let p := takeDigits s
  match p.2 with
  | c :: r2 =>
      if c = '.' then
        (digitsVal p.1 : ℚ) + (digitsVal (takeDigits r2).1 : ℚ) / 10 ^ (takeDigits r2).1.length
      else (digitsVal p.1 : ℚ)
  | [] => (digitsVal p.1 : ℚ)

/-- `schemas.SensorReadingCreate`: a plain record of the three measured
fields (the pydantic model declares no validators). -/
structure SensorReadingCreate where
  ph : ℚ
  tds : ℚ
  turbidity : ℚ
deriving DecidableEq

/-- The warning-level log calls of `parse_sensor_line`, with the value
they report. -/
inductive LogEvent
  | warnIncomplete
  | warnPh (q : ℚ)
  | warnTds (q : ℚ)
  | warnTurb (q : ℚ)
deriving DecidableEq

/-- Keyword of the acidity scan. -/
def phKw : Str := ['p', 'h']

/-- Keyword of the dissolved-solids scan. -/
def tdsKw : Str := ['t', 'd', 's']

/-- Short keyword of the turbidity scan. -/
def turbKw : Str := ['t', 'u', 'r', 'b']

/-- Long keyword of the turbidity scan. -/
def turbidityKw : Str := ['t', 'u', 'r', 'b', 'i', 'd', 'i', 't', 'y']

/-- `'ph' in part.lower()`. -/
def phMatch (t : Str) : Bool := containsSub phKw (lowerStr t)

/-- `'tds' in part.lower()`. -/
def tdsMatch (t : Str) : Bool := containsSub tdsKw (lowerStr t)

/-- `'turbidity' in part.lower() or 'turb' in part.lower()`. -/
def turbMatch (t : Str) : Bool :=
  containsSub turbidityKw (lowerStr t) || containsSub turbKw (lowerStr t)

/-- One keyword-scan loop of `parse_sensor_line`: walk the tokens; at a
token matching the keyword whose successor exists and converts, assign
the converted value (overwriting); a failed conversion is swallowed by
the inner `try` and leaves the accumulator untouched. -/
def scanStep (kwM : Str → Bool) : List Str → Option ℚ → Option ℚ
  | [], acc => acc
  | t :: rest, acc =>
      scanStep kwM rest
        (if kwM t then
          match rest with
          | [] => acc
          | v :: _ =>
              match pyFloat (stripColons v) with
              | some q => some q
              | none => acc
         else acc)

/-- A whole keyword-scan loop, started from `None`. -/
def scanKey (kwM : Str → Bool) (parts : List Str) : Option ℚ := scanStep kwM parts none

/-- `parts[i]` guarded by `len(parts) > i`. -/
def nth : List Str → ℕ → Option Str
  | [], _ => none
  | a :: _, 0 => some a
  | _ :: as, n + 1 => nth as n

/-- The positional fallback of one field: `float(parts[idx].replace(':',''))`
attempted only when the index is in range, a conversion failure giving
`none`. -/
def posFallback (idx : ℕ) (parts : List Str) : Option ℚ :=
  match nth parts idx with
  | some tkn => pyFloat (stripColons tkn)
  | none => none

/-- Body of `parse_sensor_line` after `parts = line.split()`: the three
keyword scans, the three positional fallbacks (indices 1, 4, 6), the
completeness check, the hard acidity gate and the two soft-range warning
checks.  Returns the parse result together with the warnings logged. -/
def parse_tokens (parts : List Str) : Option SensorReadingCreate × List LogEvent :=
  let ph0 := scanKey phMatch parts
  let tds0 := scanKey tdsMatch parts
  let turb0 := scanKey turbMatch parts
  let ph1 := match ph0 with
    | some q => some q
    | none => posFallback 1 parts
  let tds1 := match tds0 with
    | some q => some q
    | none => posFallback 4 parts
  let turb1 := match turb0 with
    | some q => some q
    | none => posFallback 6 parts
  match ph1, tds1, turb1 with
  | some p, some t, some u =>
      if 0 ≤ p ∧ p ≤ 14 then
        (some ⟨p, t, u⟩,
          (if t < 0 ∨ 10000 < t then [LogEvent.warnTds t] else []) ++
          (if u < 0 ∨ 100 < u then [LogEvent.warnTurb u] else []))
      else (none, [LogEvent.warnPh p])
  | _, _, _ => (none, [LogEvent.warnIncomplete])

/-- `parse_sensor_line`: empty or whitespace-only lines are rejected
silently; otherwise the token-level parse runs.  The result is the
returned `Optional[SensorReadingCreate]` paired with the warnings
logged. -/
def parse_sensor_line (line : Str) : Option SensorReadingCreate × List LogEvent :=
  if line.all pyIsSpace then (none, []) else parse_tokens (splitWS line)

/-- Acidity extraction as one composed chain (keyword scan, else the
index-1 fallback); spec-side regrouping of the lets of `parse_tokens`. -/
def extractPh (parts : List Str) : Option ℚ :=
  match scanKey phMatch parts with
  | some q => some q
  | none => posFallback 1 parts

/-- Dissolved-solids extraction as one composed chain. -/
def extractTds (parts : List Str) : Option ℚ :=
  match scanKey tdsMatch parts with
  | some q => some q
  | none => posFallback 4 parts

/-- Turbidity extraction as one composed chain. -/
def extractTurb (parts : List Str) : Option ℚ :=
  match scanKey turbMatch parts with
  | some q => some q
  | none => posFallback 6 parts

/-- The successful keyword hits of one scan, in token order: the values
converted at matching tokens whose successor parses as a number. -/
def hits (kwM : Str → Bool) : List Str → List ℚ
  | [] => []
  | t :: rest =>
      (if kwM t then
        match rest with
        | [] => []
        | v :: _ =>
            match pyFloat (stripColons v) with
            | some q => [q]
            | none => []
       else []) ++ hits kwM rest

/-- `MAX_RETRIES` of the worker. -/
def MAX_RETRIES : ℕ := 3

/-- `RETRY_DELAY` of the worker, in time units. -/
def RETRY_DELAY : ℕ := 2

/-- Outcome of one `requests.post` call: a response with a status code,
or a raised `RequestException`. -/
inductive Outcome
  | status (code : ℕ)
  | exc
deriving DecidableEq

/-- Observable actions of the delivery client: one network attempt, or a
sleep of the given number of time units. -/
inductive NetAct
  | post
  | sleep (d : ℕ)
deriving DecidableEq

/-- The retry loop of `send_sensor_data`, with `attempt` the absolute
attempt index and the recursion on the number of attempts remaining.
A 200 response returns `True` at once; any other status logs and falls
through to the next attempt with no sleep; a `RequestException` logs and,
when this is not the last attempt (`attempt < retries - 1`), sleeps
`RETRY_DELAY` before the next attempt.  Exhaustion returns `False`. -/
def sendAux (oracle : ℕ → Outcome) (attempt : ℕ) : ℕ → Bool × List NetAct
  | 0 => (false, [])
  | r + 1 =>
      match oracle attempt with
      | .status code =>
          if code = 200 then (true, [NetAct.post])
          else
            let t := sendAux oracle (attempt + 1) r
            (t.1, NetAct.post :: t.2)
      | .exc =>
          let t := sendAux oracle (attempt + 1) r
          if 0 < r then (t.1, NetAct.post :: NetAct.sleep RETRY_DELAY :: t.2)
          else (t.1, NetAct.post :: t.2)

/-- `send_sensor_data(data, retries)`: the boolean result and the trace
of posts and sleeps, the outcome of each post given by the oracle. -/
def send_sensor_data (oracle : ℕ → Outcome) (retries : ℕ) : Bool × List NetAct :=
  sendAux oracle 0 retries

/-- `max_consecutive_errors` of the main loop. -/
def max_consecutive_errors : ℕ := 10

/-- What the environment does in one iteration of the main loop:
no serial input pending; a decoded line arriving (with the delivery
oracle that would answer its posts); or an exception raised inside the
iteration and caught by the broad handler. -/
inductive LoopEvent
  | noInput
  | line (raw : Str) (oracle : ℕ → Outcome)
  | fault

/-- One iteration of the main loop acting on the consecutive-failure
counter; the boolean reports whether this iteration executed `break`.
A nonempty stripped line is parsed; an accepted reading is delivered,
resetting the counter on success and incrementing it on failure; a parse
rejection leaves the counter alone.  The breaker comparison
`consecutive_errors >= max_consecutive_errors` runs at the end of the
iteration — but the empty-line `continue` and the exception handler both
skip it. -/
def loopStep (c : ℕ) : LoopEvent → ℕ × Bool
  | .noInput => (c, decide (max_consecutive_errors ≤ c))
  | .line raw oracle =>
      let l := pyStrip raw
      if l.isEmpty then (c, false)
      else
        let c' := match (parse_sensor_line l).1 with
          | some _ => if (send_sensor_data oracle MAX_RETRIES).1 then 0 else c + 1
          | none => c
        (c', decide (max_consecutive_errors ≤ c'))
  | .fault => (c + 1, false)

/-- Run the main loop over a finite schedule of iteration events,
stopping when an iteration breaks; returns the final counter and whether
the loop exited. -/
def runLoop (c : ℕ) : List LoopEvent → ℕ × Bool
  | [] => (c, false)
  | e :: es =>
      let s := loopStep c e
      if s.2 then (s.1, true) else runLoop s.1 es

/-- The claim-shaped line `"pH: X TDS: Y Turbidity: Z"`. -/
def mkLine (x y z : Str) : Str :=
  ['p', 'H', ':', ' '] ++ x ++ [' ', 'T', 'D', 'S', ':', ' '] ++ y ++
    [' ', 'T', 'u', 'r', 'b', 'i', 'd', 'i', 't', 'y', ':', ' '] ++ z

/-- Tokens joined by single spaces (the shape `mkLine` produces). -/
def joinSep : List Str → Str
  | [] => []
  | [t] => t
  | t :: t2 :: ts => t ++ ' ' :: joinSep (t2 :: ts)

/-! ### Basic character and token lemmas -/

theorem isDig_bounds {c : Char} (h : isDig c = true) : 48 ≤ c.toNat ∧ c.toNat ≤ 57 := by
  simpa [isDig] using h

theorem pyIsSpace_false_of_bounds {c : Char} (h1 : 46 ≤ c.toNat) (h2 : c.toNat ≤ 57) :
    pyIsSpace c = false := by
  simp only [pyIsSpace, Bool.or_eq_false_iff, decide_eq_false_iff_not]
  omega

theorem lowerChar_eq_self {c : Char} (h : c.toNat < 65) : lowerChar c = c := by
  unfold lowerChar
  have hc : (65 ≤ c.toNat && c.toNat ≤ 90) = false := by
    simp only [Bool.and_eq_false_iff, decide_eq_false_iff_not]
    omega
  simp [hc]

theorem char_ne_of_toNat_ne {a b : Char} (h : a.toNat ≠ b.toNat) : a ≠ b := by
  intro e; exact h (congrArg Char.toNat e)

theorem leadsWith_false_of_head {a c : Char} {ns rest : Str} (h : c ≠ a) :
    leadsWith (a :: ns) (c :: rest) = false := by
  simp only [leadsWith, Bool.and_eq_false_iff, beq_eq_false_iff_ne, ne_eq]
  exact Or.inl fun e => h e.symm

theorem containsSub_false {a : Char} {ns : Str} :
    ∀ {hay : Str}, (∀ c ∈ hay, c ≠ a) → containsSub (a :: ns) hay = false := by
  intro hay
  induction hay with
  | nil => intro _; rfl
  | cons c rest ih =>
      intro h
      have hc : c ≠ a := h c (by simp)
      simp only [containsSub, Bool.or_eq_false_iff]
      exact ⟨leadsWith_false_of_head hc, ih fun d hd => h d (by simp [hd])⟩

theorem takeDigits_append : ∀ s : Str, (takeDigits s).1 ++ (takeDigits s).2 = s := by
  intro s
  induction s with
  | nil => rfl
  | cons c r ih =>
      by_cases hc : isDig c = true
      · simp [takeDigits, hc, ih]
      · simp [takeDigits, Bool.eq_false_iff.mpr hc]

theorem takeDigits_digits : ∀ s : Str, ∀ c ∈ (takeDigits s).1, isDig c = true := by
  intro s
  induction s with
  | nil => intro c hc; simp [takeDigits] at hc
  | cons a r ih =>
      intro c hc
      by_cases ha : isDig a = true
      · simp only [takeDigits, ha, if_true] at hc
        rcases List.mem_cons.mp hc with h | h
        · exact h ▸ ha
        · exact ih c h
      · simp [takeDigits, Bool.eq_false_iff.mpr ha] at hc

/-- Structure of a plain decimal numeral: it is nonempty and each of its
characters is a digit or the point (code points 46 and 48–57). -/
theorem decNum_chars {s : Str} (h : decNum s = true) :
    s ≠ [] ∧ ∀ c ∈ s, 46 ≤ c.toNat ∧ c.toNat ≤ 57 := by
  have hsplit := takeDigits_append s
  have hdig := takeDigits_digits s
  simp only [decNum, Bool.and_eq_true, Bool.or_eq_true, Bool.not_eq_true',
    List.isEmpty_eq_false, List.isEmpty_iff] at h
  obtain ⟨hne, hrest⟩ := h
  refine ⟨?_, ?_⟩
  · intro he
    apply hne
    have h1 : (takeDigits s).1 ++ (takeDigits s).2 = [] := by rw [hsplit, he]
    exact (List.append_eq_nil.mp h1).1
  · intro c hc
    rw [← hsplit] at hc
    rcases List.mem_append.mp hc with h1 | h2
    · have := isDig_bounds (hdig c h1); omega
    · rcases hr : (takeDigits s).2 with _ | ⟨c1, r2⟩
      · rw [hr] at h2; simp at h2
      · rw [hr] at h2 hrest
        rcases hrest with he | hm
        · simp at he
        · simp only [Bool.and_eq_true, decide_eq_true_eq, Bool.not_eq_true',
            List.isEmpty_eq_false, List.isEmpty_iff] at hm
          obtain ⟨hdot, _, hfe⟩ := hm
          rcases List.mem_cons.mp h2 with h3 | h4
          · subst h3; rw [hdot]; refine ⟨by decide, by decide⟩
          · have hsp := takeDigits_append r2
            rw [hfe, List.append_nil] at hsp
            rw [← hsp] at h4
            have := isDig_bounds (takeDigits_digits r2 c h4); omega

theorem splitSign_of_dig {c : Char} {t : Str} (h : isDig c = true) :
    splitSign (c :: t) = (false, c :: t) := by
  have hb := isDig_bounds h
  have h1 : c ≠ '+' := by
    intro e; rw [e] at hb
    have hv : ('+' : Char).toNat = 43 := rfl
    omega
  have h2 : c ≠ '-' := by
    intro e; rw [e] at hb
    have hv : ('-' : Char).toNat = 45 := rfl
    omega
  simp [splitSign, h1, h2]

/-- On plain decimal numerals the `float()` model succeeds with the
numeral's value. -/
theorem pyFloat_decNum {s : Str} (h : decNum s = true) : pyFloat s = some (decVal s) := by
  have hsplit := takeDigits_append s
  have hdig := takeDigits_digits s
  simp only [decNum, Bool.and_eq_true, Bool.or_eq_true, Bool.not_eq_true',
    List.isEmpty_eq_false, List.isEmpty_iff] at h
  obtain ⟨hne, hrest⟩ := h
  rcases hd : (takeDigits s).1 with _ | ⟨c0, d'⟩
  · exact absurd hd hne
  have hc0 : isDig c0 = true := hdig c0 (by rw [hd]; exact List.mem_cons_self _ _)
  have hsform : s = c0 :: (d' ++ (takeDigits s).2) := by
    conv_lhs => rw [← hsplit]
    rw [hd, List.cons_append]
  have hss : splitSign s = (false, s) := by
    conv_lhs => rw [hsform]
    rw [splitSign_of_dig hc0, ← hsform]
  rcases hr : (takeDigits s).2 with _ | ⟨c1, r2⟩
  · simp only [pyFloat, decVal, hss, hr, hd, List.isEmpty_cons, Bool.false_eq_true,
      if_false, pyFloatAfterMant, signApply, Bool.false_eq_true, if_false]
  · rcases hrest with he | hm
    · simp [hr] at he
    · rw [hr] at hm
      simp only [Bool.and_eq_true, decide_eq_true_eq, Bool.not_eq_true',
        List.isEmpty_eq_false, List.isEmpty_iff] at hm
      obtain ⟨hdot, hf, hfe⟩ := hm
      subst hdot
      simp only [pyFloat, decVal, hss, hr, hd, hfe, List.isEmpty_cons, Bool.false_and,
        Bool.false_eq_true, if_false, if_true, pyFloatAfterMant, signApply]

/-! ### Tokenization lemmas -/

theorem lowerStr_eq_self {s : Str} (h : ∀ c ∈ s, c.toNat < 65) : lowerStr s = s := by
  unfold lowerStr
  induction s with
  | nil => rfl
  | cons c r ih =>
      simp only [List.map_cons]
      rw [lowerChar_eq_self (h c (by simp)), ih (fun d hd => h d (by simp [hd]))]

/-- A decimal-numeral token never triggers any of the three keyword
scans. -/
theorem decNum_no_kw {s : Str} (h : decNum s = true) :
    phMatch s = false ∧ tdsMatch s = false ∧ turbMatch s = false := by
  obtain ⟨-, hb⟩ := decNum_chars h
  have hlow : lowerStr s = s := lowerStr_eq_self (fun c hc => by have := hb c hc; omega)
  have hp : ∀ c ∈ s, c ≠ 'p' := by
    intro c hc e
    have hb2 := hb c hc
    rw [e] at hb2
    have hv : ('p' : Char).toNat = 112 := rfl
    omega
  have ht : ∀ c ∈ s, c ≠ 't' := by
    intro c hc e
    have hb2 := hb c hc
    rw [e] at hb2
    have hv : ('t' : Char).toNat = 116 := rfl
    omega
  refine ⟨?_, ?_, ?_⟩
  · unfold phMatch; rw [hlow]; exact containsSub_false hp
  · unfold tdsMatch; rw [hlow]; exact containsSub_false ht
  · unfold turbMatch; rw [hlow]
    rw [show containsSub turbidityKw s = false from containsSub_false ht,
        show containsSub turbKw s = false from containsSub_false ht]
    rfl

theorem stripColons_eq_self {s : Str} (h : ∀ c ∈ s, c.toNat ≤ 57) : stripColons s = s := by
  unfold stripColons
  apply List.filter_eq_self.mpr
  intro c hc
  have hb := h c hc
  simp only [bne_iff_ne, ne_eq]
  intro e
  rw [e] at hb
  have hv : (':' : Char).toNat = 58 := rfl
  omega

theorem splitWSAux_word {t : Str} (h : ∀ c ∈ t, pyIsSpace c = false) :
    ∀ (r acc : Str), splitWSAux (t ++ r) acc = splitWSAux r (t.reverse ++ acc) := by
  induction t with
  | nil => intro r acc; simp
  | cons c t' ih =>
      intro r acc
      have hc : pyIsSpace c = false := h c (by simp)
      have step : splitWSAux ((c :: t') ++ r) acc = splitWSAux (t' ++ r) (c :: acc) := by
        rw [List.cons_append]
        simp [splitWSAux, hc]
      rw [step, ih (fun d hd => h d (by simp [hd])) r (c :: acc)]
      simp [List.reverse_cons, List.append_assoc]

/-- Splitting a line of nonempty whitespace-free tokens joined by single
spaces recovers exactly those tokens. -/
theorem splitWS_joinSep :
    ∀ toks : List Str, (∀ t ∈ toks, t ≠ [] ∧ ∀ c ∈ t, pyIsSpace c = false) →
      splitWS (joinSep toks) = toks := by
  intro toks
  induction toks with
  | nil => intro _; rfl
  | cons t ts ih =>
      intro h
      obtain ⟨htne, htns⟩ := h t (by simp)
      cases ts with
      | nil =>
          have hw := splitWSAux_word htns [] []
          rw [List.append_nil] at hw
          show splitWSAux t [] = [t]
          rw [hw]
          have hne : (t.reverse ++ []).isEmpty = false := by
            simp [List.isEmpty_eq_false, htne]
          simp [splitWSAux, hne, htne]
      | cons t2 ts2 =>
          have hw := splitWSAux_word htns (' ' :: joinSep (t2 :: ts2)) []
          show splitWSAux (t ++ ' ' :: joinSep (t2 :: ts2)) [] = t :: t2 :: ts2
          rw [hw]
          have hsp : pyIsSpace ' ' = true := rfl
          have hne : (List.reverse t).isEmpty = false := by
            simp [List.isEmpty_eq_false, htne]
          simp only [splitWSAux, hsp, if_true, List.append_nil, hne,
            Bool.false_eq_true, if_false, List.reverse_reverse]
          exact congrArg (List.cons t) (ih (fun u hu => h u (by simp [hu])))

/-- First token of the claim-shaped line. -/
def phTok : Str := ['p', 'H', ':']

/-- Third token of the claim-shaped line. -/
def tdsTok : Str := ['T', 'D', 'S', ':']

/-- Fifth token of the claim-shaped line. -/
def turbTok : Str := ['T', 'u', 'r', 'b', 'i', 'd', 'i', 't', 'y', ':']

theorem mkLine_joinSep (x y z : Str) :
    mkLine x y z = joinSep [phTok, x, tdsTok, y, turbTok, z] := by
  simp [mkLine, joinSep, phTok, tdsTok, turbTok]

theorem splitWS_mkLine {x y z : Str} (hx : decNum x = true) (hy : decNum y = true)
    (hz : decNum z = true) :
    splitWS (mkLine x y z) = [phTok, x, tdsTok, y, turbTok, z] := by
  rw [mkLine_joinSep]
  apply splitWS_joinSep
  have hxc := decNum_chars hx
  have hyc := decNum_chars hy
  have hzc := decNum_chars hz
  intro t ht
  simp only [List.mem_cons, List.not_mem_nil, or_false] at ht
  rcases ht with rfl | rfl | rfl | rfl | rfl | rfl
  · exact ⟨by decide, by decide⟩
  · exact ⟨hxc.1, fun c hc => pyIsSpace_false_of_bounds (hxc.2 c hc).1 (hxc.2 c hc).2⟩
  · exact ⟨by decide, by decide⟩
  · exact ⟨hyc.1, fun c hc => pyIsSpace_false_of_bounds (hyc.2 c hc).1 (hyc.2 c hc).2⟩
  · exact ⟨by decide, by decide⟩
  · exact ⟨hzc.1, fun c hc => pyIsSpace_false_of_bounds (hzc.2 c hc).1 (hzc.2 c hc).2⟩

/-! ### Keyword scans on the claim-shaped line -/

theorem scans_mkLine {x y z : Str} (hx : decNum x = true) (hy : decNum y = true)
    (hz : decNum z = true) :
    scanKey phMatch [phTok, x, tdsTok, y, turbTok, z] = some (decVal x) ∧
    scanKey tdsMatch [phTok, x, tdsTok, y, turbTok, z] = some (decVal y) ∧
    scanKey turbMatch [phTok, x, tdsTok, y, turbTok, z] = some (decVal z) := by
  obtain ⟨hpx, htx, hux⟩ := decNum_no_kw hx
  obtain ⟨hpy, hty, huy⟩ := decNum_no_kw hy
  obtain ⟨hpz, htz, huz⟩ := decNum_no_kw hz
  have hsx : stripColons x = x :=
    stripColons_eq_self (fun c hc => ((decNum_chars hx).2 c hc).2)
  have hsy : stripColons y = y :=
    stripColons_eq_self (fun c hc => ((decNum_chars hy).2 c hc).2)
  have hsz : stripColons z = z :=
    stripColons_eq_self (fun c hc => ((decNum_chars hz).2 c hc).2)
  have hfx := pyFloat_decNum hx
  have hfy := pyFloat_decNum hy
  have hfz := pyFloat_decNum hz
  have e1 : phMatch phTok = true := by decide
  have e2 : phMatch tdsTok = false := by decide
  have e3 : phMatch turbTok = false := by decide
  have e4 : tdsMatch phTok = false := by decide
  have e5 : tdsMatch tdsTok = true := by decide
  have e6 : tdsMatch turbTok = false := by decide
  have e7 : turbMatch phTok = false := by decide
  have e8 : turbMatch tdsTok = false := by decide
  have e9 : turbMatch turbTok = true := by decide
  refine ⟨?_, ?_, ?_⟩
  · simp only [scanKey, scanStep, e1, e2, e3, hpx, hpy, hpz, hsx, hfx,
      if_true, Bool.false_eq_true, if_false]
  · simp only [scanKey, scanStep, e4, e5, e6, htx, hty, htz, hsy, hfy,
      if_true, Bool.false_eq_true, if_false]
  · simp only [scanKey, scanStep, e7, e8, e9, hux, huy, huz, hsz, hfz,
      if_true, Bool.false_eq_true, if_false]

/-- **C1.**  Every line of the exact shape `"pH: X TDS: Y Turbidity: Z"`
whose three numerals satisfy X ∈ [0, 14], Y ≥ 0, Z ≥ 0 is parsed into a
reading carrying exactly those three values — never a rejection, never
different values. -/
theorem claim_C1_wellformed_line :
    ∀ x y z : Str, decNum x = true → decNum y = true → decNum z = true →
      0 ≤ decVal x → decVal x ≤ 14 → 0 ≤ decVal y → 0 ≤ decVal z →
      (parse_sensor_line (mkLine x y z)).1 =
        some ⟨decVal x, decVal y, decVal z⟩ := by
  intro x y z hx hy hz h0 h14 hy0 hz0
  have hsplit := splitWS_mkLine hx hy hz
  obtain ⟨hph, htd, htu⟩ := scans_mkLine hx hy hz
  have hps : (['p', 'H', ':', ' '] : Str).all pyIsSpace = false := by decide
  have hall : (mkLine x y z).all pyIsSpace = false := by
    unfold mkLine
    simp only [List.all_append, hps, Bool.false_and]
  have hline : parse_sensor_line (mkLine x y z) = parse_tokens (splitWS (mkLine x y z)) := by
    unfold parse_sensor_line
    rw [hall]
    rfl
  rw [hline, hsplit]
  simp only [parse_tokens, hph, htd, htu]
  rw [if_pos ⟨h0, h14⟩]

/-- Witness for C1 at the concrete line `"pH: 7 TDS: 145 Turbidity: 2"`. -/
theorem claim_C1_wellformed_line_witness :
    (parse_sensor_line (mkLine ['7'] ['1', '4', '5'] ['2'])).1 =
      some ⟨decVal ['7'], decVal ['1', '4', '5'], decVal ['2']⟩ :=
  claim_C1_wellformed_line ['7'] ['1', '4', '5'] ['2']
    (by decide) (by decide) (by decide) (by decide) (by decide) (by decide) (by decide)

/-! ### Field extraction and validation claims -/

/-- The token-level parse is exactly the validation applied to the three
per-field extraction chains (and so the three fields are computed
independently of one another). -/
theorem parse_tokens_fields (parts : List Str) :
    parse_tokens parts =
      match extractPh parts, extractTds parts, extractTurb parts with
      | some p, some t, some u =>
          if 0 ≤ p ∧ p ≤ 14 then
            (some ⟨p, t, u⟩,
              (if t < 0 ∨ 10000 < t then [LogEvent.warnTds t] else []) ++
              (if u < 0 ∨ 100 < u then [LogEvent.warnTurb u] else []))
          else (none, [LogEvent.warnPh p])
      | _, _, _ => (none, [LogEvent.warnIncomplete]) := rfl

/-- **C2.**  Validation after extraction is asymmetric: when all three
fields resolve, an out-of-range acidity rejects the whole line (with a
warning), while out-of-range dissolved-solids or turbidity never reject —
the reading is returned and a warning is logged for each soft field out
of range. -/
theorem claim_C2_validation_asymmetry :
    ∀ (parts : List Str) (p t u : ℚ),
      extractPh parts = some p → extractTds parts = some t → extractTurb parts = some u →
      (¬(0 ≤ p ∧ p ≤ 14) → parse_tokens parts = (none, [LogEvent.warnPh p])) ∧
      ((0 ≤ p ∧ p ≤ 14) →
        (parse_tokens parts).1 = some ⟨p, t, u⟩ ∧
        ((t < 0 ∨ 10000 < t) → LogEvent.warnTds t ∈ (parse_tokens parts).2) ∧
        ((u < 0 ∨ 100 < u) → LogEvent.warnTurb u ∈ (parse_tokens parts).2)) := by
  intro parts p t u hp ht hu
  simp only [parse_tokens_fields, hp, ht, hu]
  constructor
  · intro hbad
    rw [if_neg hbad]
  · intro hgood
    rw [if_pos hgood]
    refine ⟨rfl, ?_, ?_⟩
    · intro hw; rw [if_pos hw]; simp
    · intro hw; rw [if_pos hw]; simp

/-- Witness for C2: the spec's own example `"pH: 7 TDS: 20000 Turbidity: 200"`
is accepted with both soft-range warnings. -/
theorem claim_C2_validation_asymmetry_witness :
    (parse_tokens [phTok, ['7'], tdsTok, ['2', '0', '0', '0', '0'], turbTok,
        ['2', '0', '0']]).1 = some ⟨7, 20000, 200⟩ ∧
    LogEvent.warnTds 20000 ∈ (parse_tokens [phTok, ['7'], tdsTok,
        ['2', '0', '0', '0', '0'], turbTok, ['2', '0', '0']]).2 ∧
    LogEvent.warnTurb 200 ∈ (parse_tokens [phTok, ['7'], tdsTok,
        ['2', '0', '0', '0', '0'], turbTok, ['2', '0', '0']]).2 :=
  have h := claim_C2_validation_asymmetry
    [phTok, ['7'], tdsTok, ['2', '0', '0', '0', '0'], turbTok, ['2', '0', '0']]
    7 20000 200 (by decide) (by decide) (by decide)
  have h2 := h.2 (by norm_num)
  ⟨h2.1, h2.2.1 (Or.inr (by norm_num)), h2.2.2 (Or.inr (by norm_num))⟩

/-- **C5.**  Per field, the positional fallback is consulted exactly when
the keyword scan produced nothing; a keyword-scan value always wins; and
the parse outcome is fully determined by the three independent per-field
chains. -/
theorem claim_C5_fallback_chain :
    ∀ parts : List Str,
      (∀ q, scanKey phMatch parts = some q → extractPh parts = some q) ∧
      (scanKey phMatch parts = none → extractPh parts = posFallback 1 parts) ∧
      (∀ q, scanKey tdsMatch parts = some q → extractTds parts = some q) ∧
      (scanKey tdsMatch parts = none → extractTds parts = posFallback 4 parts) ∧
      (∀ q, scanKey turbMatch parts = some q → extractTurb parts = some q) ∧
      (scanKey turbMatch parts = none → extractTurb parts = posFallback 6 parts) ∧
      (parse_tokens parts).1 =
        (match extractPh parts, extractTds parts, extractTurb parts with
         | some p, some t, some u => if 0 ≤ p ∧ p ≤ 14 then some ⟨p, t, u⟩ else none
         | _, _, _ => none) := by
  intro parts
  refine ⟨?_, ?_, ?_, ?_, ?_, ?_, ?_⟩
  · intro q h; simp [extractPh, h]
  · intro h; simp [extractPh, h]
  · intro q h; simp [extractTds, h]
  · intro h; simp [extractTds, h]
  · intro q h; simp [extractTurb, h]
  · intro h; simp [extractTurb, h]
  · rw [parse_tokens_fields]
    cases hP : extractPh parts with
    | none => rfl
    | some p =>
        cases hT : extractTds parts with
        | none => rfl
        | some t =>
            cases hU : extractTurb parts with
            | none => rfl
            | some u => by_cases hc : 0 ≤ p ∧ p ≤ 14 <;> simp [hc]

/-- Witness for C5: on the spec's example line the keyword value 6 beats
the positional candidates, and on a keyword-free line the index-1
fallback is taken. -/
theorem claim_C5_fallback_chain_witness :
    extractPh [['f', 'o', 'o'], ['b', 'a', 'r'], ['p', 'H', ':'], ['6'], ['b', 'a', 'z'],
        tdsTok, ['9', '9'], ['q', 'u', 'x'], turbTok, ['1']] = some 6 ∧
    extractPh [['a'], ['5']] = posFallback 1 [['a'], ['5']] :=
  ⟨(claim_C5_fallback_chain _).1 6 (by decide),
   (claim_C5_fallback_chain _).2.1 (by decide)⟩

/-! ### Last-match behaviour of the keyword scan -/

/-- Tokens of the line `"zz ph: 2 ph: x tds: 1 turb: 1"`. -/
def c6parts : List Str :=
  [['z', 'z'], ['p', 'h', ':'], ['2'], ['p', 'h', ':'], ['x'],
   ['t', 'd', 's', ':'], ['1'], ['t', 'u', 'r', 'b', ':'], ['1']]

/-- **C6 counterexample.**  On `"zz ph: 2 ph: x tds: 1 turb: 1"` the
acidity keyword matches the tokens at indices 1 and 3 and no others; the
token following the *last* match does not convert to a number, so the
value "taken at the last matching token" does not exist — yet the scan
returns 2, the value taken at the *earlier* match, and the parse accepts
the line with acidity 2.  The scan therefore does not overwrite on every
hit, refuting the claim as stated. -/
theorem claim_C6_cex :
    phMatch (c6parts.getD 1 []) = true ∧
    phMatch (c6parts.getD 3 []) = true ∧
    ((List.range c6parts.length).all fun j =>
        j == 1 || j == 3 || !phMatch (c6parts.getD j [])) = true ∧
    pyFloat (stripColons (c6parts.getD 4 [])) = none ∧
    scanKey phMatch c6parts = some 2 ∧
    (parse_sensor_line (joinSep c6parts)).1 = some ⟨2, 1, 1⟩ :=
  ⟨by decide, by decide, by decide, by decide, by decide, by decide⟩

theorem scanStep_cons (kwM : Str → Bool) (t : Str) (rest : List Str) (acc : Option ℚ) :
    scanStep kwM (t :: rest) acc =
      scanStep kwM rest
        (if kwM t then
          match rest with
          | [] => acc
          | v :: _ =>
              match pyFloat (stripColons v) with
              | some q => some q
              | none => acc
         else acc) := rfl

theorem scanStep_hits (kwM : Str → Bool) :
    ∀ (parts : List Str) (acc : Option ℚ),
      scanStep kwM parts acc =
        match (hits kwM parts).getLast? with
        | some q => some q
        | none => acc := by
  intro parts
  induction parts with
  | nil => intro acc; rfl
  | cons t rest ih =>
      intro acc
      rw [scanStep_cons, ih]
      rcases hr : (hits kwM rest).getLast? with _ | q
      · have hrw : (hits kwM (t :: rest)).getLast? =
            (if kwM t then
              match rest with
              | [] => ([] : List ℚ)
              | v :: _ =>
                  match pyFloat (stripColons v) with
                  | some q => [q]
                  | none => []
             else []).getLast? := by
          simp only [hits, List.getLast?_append, hr, Option.none_or]
        rw [hrw]
        cases hk : kwM t
        · simp
        · cases rest with
          | nil => simp
          | cons v vs =>
              cases hv : pyFloat (stripColons v) with
              | none => simp [hv]
              | some q2 => simp [hv]
      · have hrw : (hits kwM (t :: rest)).getLast? = some q := by
          simp only [hits, List.getLast?_append, hr]
          rfl
        rw [hrw]

/-- **C6 (amended).**  The scan walks every token, but it overwrites the
field's value only at hits whose following token converts to a number:
the value finally extracted is the one at the last *successful* hit (a
match at the line's final token, or one whose follower fails to convert,
leaves the previous value in place). -/
theorem claim_C6_last_hit_amended :
    ∀ (kwM : Str → Bool) (parts : List Str),
      scanKey kwM parts = (hits kwM parts).getLast? := by
  intro kwM parts
  rw [scanKey, scanStep_hits]
  rcases (hits kwM parts).getLast? with _ | q <;> rfl

/-! ### Totality and absorption -/

/-- **C8.**  The parser is total: whitespace-only input is rejected with
no diagnostic at all; a conversion failure at a matching token is
absorbed — the scan state is unchanged and scanning continues with the
remaining tokens; and on every input the parser returns either a reading
or a rejection (the embedding is a total function, mirroring the
catch-all around the Python body). -/
theorem claim_C8_totality :
    (∀ line : Str, line.all pyIsSpace = true → parse_sensor_line line = (none, [])) ∧
    (∀ (kwM : Str → Bool) (t v : Str) (rest : List Str) (acc : Option ℚ),
        kwM t = true → pyFloat (stripColons v) = none →
        scanStep kwM (t :: v :: rest) acc = scanStep kwM (v :: rest) acc) ∧
    (∀ line : Str, (parse_sensor_line line).1 = none ∨
        ∃ r : SensorReadingCreate, (parse_sensor_line line).1 = some r) := by
  refine ⟨?_, ?_, ?_⟩
  · intro line h; simp [parse_sensor_line, h]
  · intro kwM t v rest acc h1 h2
    rw [scanStep]
    simp [h1, h2]
  · intro line
    cases h : (parse_sensor_line line).1 with
    | none => exact Or.inl rfl
    | some r => exact Or.inr ⟨r, rfl⟩

/-- Witness for C8: a space-only line is silently rejected, and a failed
conversion after a matching token leaves the scan unchanged. -/
theorem claim_C8_totality_witness :
    parse_sensor_line [' '] = (none, []) ∧
    scanStep phMatch [['p', 'h'], ['x'], ['9']] none =
      scanStep phMatch [['x'], ['9']] none :=
  ⟨claim_C8_totality.1 [' '] (by decide),
   claim_C8_totality.2.1 phMatch ['p', 'h'] ['x'] [['9']] none (by decide) (by decide)⟩

/-! ### Substring keyword matching -/

theorem scanStep_final_hit {kwM : Str → Bool} {w v : Str} {q : ℚ}
    (hw : kwM w = true) (hv : pyFloat (stripColons v) = some q) :
    ∀ (ps : List Str) (acc : Option ℚ), scanStep kwM (ps ++ [w, v]) acc = some q := by
  intro ps
  induction ps with
  | nil =>
      intro acc
      rw [List.nil_append, scanStep]
      simp only [hw, if_true, hv]
      rw [scanStep]
      cases hk : kwM v <;> simp [scanStep, hk]
  | cons a ps' ih =>
      intro acc
      rw [List.cons_append, scanStep_cons]
      exact ih _

/-- **C10.**  The keyword scans match by substring containment of the
lower-cased token, not exact equality: any token containing `ph`
(respectively `tds`, `turb`) anywhere, followed by a converting token,
triggers extraction of that field from the following token — here stated
with the pair as the final tokens, after any prefix of the line. -/
theorem claim_C10_substring_matching :
    (∀ (ps : List Str) (w v : Str) (q : ℚ),
        containsSub phKw (lowerStr w) = true → pyFloat (stripColons v) = some q →
        scanKey phMatch (ps ++ [w, v]) = some q) ∧
    (∀ (ps : List Str) (w v : Str) (q : ℚ),
        containsSub tdsKw (lowerStr w) = true → pyFloat (stripColons v) = some q →
        scanKey tdsMatch (ps ++ [w, v]) = some q) ∧
    (∀ (ps : List Str) (w v : Str) (q : ℚ),
        containsSub turbKw (lowerStr w) = true → pyFloat (stripColons v) = some q →
        scanKey turbMatch (ps ++ [w, v]) = some q) := by
  refine ⟨?_, ?_, ?_⟩
  · intro ps w v q hw hv
    exact scanStep_final_hit (show phMatch w = true from hw) hv ps none
  · intro ps w v q hw hv
    exact scanStep_final_hit (show tdsMatch w = true from hw) hv ps none
  · intro ps w v q hw hv
    have hm : turbMatch w = true := by unfold turbMatch; rw [hw]; simp
    exact scanStep_final_hit hm hv ps none

/-- Witness for C10: `"graph"`, `"xtdsy"` and `"turbine"` all trigger
their scans by mere containment (for acidity, even overriding an earlier
honest `"ph:"` match). -/
theorem claim_C10_substring_matching_witness :
    scanKey phMatch [['p', 'h', ':'], ['1'], ['g', 'r', 'a', 'p', 'h'], ['7']] = some 7 ∧
    scanKey tdsMatch [['x', 't', 'd', 's', 'y'], ['3']] = some 3 ∧
    scanKey turbMatch [['t', 'u', 'r', 'b', 'i', 'n', 'e'], ['2']] = some 2 :=
  ⟨claim_C10_substring_matching.1 [['p', 'h', ':'], ['1']] ['g', 'r', 'a', 'p', 'h'] ['7'] 7
      (by decide) (by decide),
   claim_C10_substring_matching.2.1 [] ['x', 't', 'd', 's', 'y'] ['3'] 3
      (by decide) (by decide),
   claim_C10_substring_matching.2.2 [] ['t', 'u', 'r', 'b', 'i', 'n', 'e'] ['2'] 2
      (by decide) (by decide)⟩

/-! ### Delivery client claims -/

/-- Count of network attempts in a delivery trace. -/
def postCount : List NetAct → ℕ
  | [] => 0
  | NetAct.post :: tr => postCount tr + 1
  | NetAct.sleep _ :: tr => postCount tr

theorem sendAux_allfail (oracle : ℕ → Outcome) :
    ∀ (r a : ℕ), (∀ i, a ≤ i → i < a + r → oracle i ≠ Outcome.status 200) →
      (sendAux oracle a r).1 = false ∧ postCount (sendAux oracle a r).2 = r := by
  intro r
  induction r with
  | zero => intro a _; exact ⟨rfl, rfl⟩
  | succ r ih =>
      intro a h
      have ha : oracle a ≠ Outcome.status 200 := h a (le_refl a) (by omega)
      obtain ⟨ih1, ih2⟩ := ih (a + 1) (fun i h1 h2 => h i (by omega) (by omega))
      cases ho : oracle a with
      | status code =>
          have hcode : code ≠ 200 := fun e => ha (by rw [ho, e])
          simp only [sendAux, ho, hcode, if_false, postCount]
          exact ⟨ih1, by rw [ih2]⟩
      | exc =>
          by_cases hre : 0 < r
          · simp only [sendAux, ho, if_pos hre, postCount]
            exact ⟨ih1, by rw [ih2]⟩
          · simp only [sendAux, ho, if_neg hre, postCount]
            exact ⟨ih1, by rw [ih2]⟩

/-- **C7.**  `send_sensor_data` makes exactly `retries` attempts
(`MAX_RETRIES = 3` by default) when every attempt fails — a rejected
status and a network fault both count as a failed attempt — and then
returns the failure value; in the embedding the result is always a plain
boolean, mirroring that the Python function never raises. -/
theorem claim_C7_retry_exhaustion :
    MAX_RETRIES = 3 ∧
    ∀ (oracle : ℕ → Outcome) (retries : ℕ),
      (∀ i, i < retries → oracle i ≠ Outcome.status 200) →
      (send_sensor_data oracle retries).1 = false ∧
      postCount (send_sensor_data oracle retries).2 = retries :=
  ⟨rfl, fun oracle retries h =>
    sendAux_allfail oracle retries 0 (fun i _ h2 => h i (by omega))⟩

/-- Witness for C7: three network faults exhaust the default budget. -/
theorem claim_C7_retry_exhaustion_witness :
    (send_sensor_data (fun _ => Outcome.exc) 3).1 = false ∧
    postCount (send_sensor_data (fun _ => Outcome.exc) 3).2 = 3 :=
  claim_C7_retry_exhaustion.2 (fun _ => Outcome.exc) 3 (fun _ _ hc => Outcome.noConfusion hc)

/-- **C4 counterexample.**  With every attempt failing on a rejected
status (500), the delivery trace is three bare posts: no delay separates
the consecutive failed attempts, refuting the claim that the fixed delay
occurs between every two consecutive failed attempts regardless of the
failure kind. -/
theorem claim_C4_cex :
    send_sensor_data (fun _ => Outcome.status 500) 3 =
      (false, [NetAct.post, NetAct.post, NetAct.post]) ∧ RETRY_DELAY = 2 :=
  ⟨rfl, rfl⟩

theorem sendAux_trace (oracle : ℕ → Outcome) :
    ∀ (r a : ℕ), (∀ i, a ≤ i → i < a + r → oracle i ≠ Outcome.status 200) →
      (sendAux oracle a r).2 =
        ((List.range r).map fun j =>
          NetAct.post :: (if oracle (a + j) = Outcome.exc ∧ j + 1 < r
                          then [NetAct.sleep RETRY_DELAY] else [])).flatten := by
  intro r
  induction r with
  | zero => intro a _; rfl
  | succ r ih =>
      intro a h
      have ha : oracle a ≠ Outcome.status 200 := h a (le_refl a) (by omega)
      have htail := ih (a + 1) (fun i h1 h2 => h i (by omega) (by omega))
      have hmap : ((List.range r).map Nat.succ).map
            (fun j => NetAct.post :: (if oracle (a + j) = Outcome.exc ∧ j + 1 < r + 1
                        then [NetAct.sleep RETRY_DELAY] else [])) =
          (List.range r).map
            (fun j => NetAct.post :: (if oracle ((a + 1) + j) = Outcome.exc ∧ j + 1 < r
                        then [NetAct.sleep RETRY_DELAY] else [])) := by
        rw [List.map_map]
        apply List.map_congr_left
        intro j hj
        have h1 : a + (j + 1) = (a + 1) + j := by omega
        have h2 : (j + 1 + 1 < r + 1) = (j + 1 < r) := by
          apply propext; constructor <;> (intro; omega)
        simp only [Function.comp_apply, Nat.succ_eq_add_one, h1, h2]
      rw [List.range_succ_eq_map, List.map_cons, hmap]
      simp only [List.flatten_cons]
      rw [← htail]
      cases ho : oracle a with
      | status code =>
          have hcond : ¬(oracle (a + 0) = Outcome.exc ∧ 0 + 1 < r + 1) := by
            rw [Nat.add_zero, ho]
            rintro ⟨hfalse, -⟩
            cases hfalse
          have hcode : code ≠ 200 := fun e => ha (by rw [ho, e])
          simp only [sendAux, ho, hcode, if_false, if_neg hcond, List.nil_append,
            List.cons_append]
      | exc =>
          by_cases hre : 0 < r
          · have hcond : oracle (a + 0) = Outcome.exc ∧ 0 + 1 < r + 1 := by
              rw [Nat.add_zero, ho]; exact ⟨rfl, by omega⟩
            simp only [sendAux, ho, if_pos hre, if_pos hcond, List.cons_append,
              List.nil_append]
          · have hcond : ¬(oracle (a + 0) = Outcome.exc ∧ 0 + 1 < r + 1) := by
              rintro ⟨-, h2⟩; omega
            simp only [sendAux, ho, if_neg hre, if_neg hcond, List.nil_append,
              List.cons_append]

/-- **C4 (amended).**  When every attempt fails, the trace is one post
per attempt, with the fixed 2-unit delay inserted after an attempt
exactly when that attempt failed with a network-level fault and was not
the last attempt; a rejected-status failure moves to the next attempt
with no delay, and no delay ever follows the final attempt. -/
theorem claim_C4_delay_amended :
    ∀ (oracle : ℕ → Outcome) (retries : ℕ),
      (∀ i, i < retries → oracle i ≠ Outcome.status 200) →
      (send_sensor_data oracle retries).2 =
        ((List.range retries).map fun i =>
          NetAct.post :: (if oracle i = Outcome.exc ∧ i + 1 < retries
                          then [NetAct.sleep RETRY_DELAY] else [])).flatten := by
  intro oracle retries h
  have := sendAux_trace oracle retries 0 (fun i _ h2 => h i (by omega))
  rw [send_sensor_data, this]
  apply congrArg
  apply List.map_congr_left
  intro j hj
  rw [Nat.zero_add]

/-- Witness for the amended C4: three network faults give
post, sleep 2, post, sleep 2, post — no sleep after the last attempt. -/
theorem claim_C4_delay_amended_witness :
    (send_sensor_data (fun _ => Outcome.exc) 3).2 =
      [NetAct.post, NetAct.sleep 2, NetAct.post, NetAct.sleep 2, NetAct.post] :=
  (claim_C4_delay_amended (fun _ => Outcome.exc) 3 (fun i _ hc => Outcome.noConfusion hc)).trans (by decide)

/-! ### Supervisor loop claims -/

/-- **C3 counterexample.**  Fifteen consecutive caught faults leave the
counter at 15 — at and above the ceiling of 10 since the tenth — yet the
loop has not exited: the breaker comparison sits at the end of the
`try` block, so a faulting iteration skips it, and the loop keeps
spinning while faults persist, refuting the claim that the loop exits
once the counter reaches the ceiling regardless of how it got there. -/
theorem claim_C3_cex :
    runLoop 0 (List.replicate 15 LoopEvent.fault) = (15, false) ∧
    max_consecutive_errors = 10 :=
  ⟨rfl, rfl⟩

/-- **C3 (amended).**  The breaker comparison runs only at the end of an
iteration that completes normally: a caught fault increments the counter
but never exits, and an empty-line iteration skips the check leaving the
counter unchanged.  Once the counter is at or above the ceiling, the
first subsequent normally completing iteration exits the loop — unless
that iteration is a successful delivery, which resets the counter to
zero instead. -/
theorem claim_C3_breaker_amended :
    (∀ c : ℕ, loopStep c LoopEvent.fault = (c + 1, false)) ∧
    (∀ c : ℕ, max_consecutive_errors ≤ c → loopStep c LoopEvent.noInput = (c, true)) ∧
    (∀ (c : ℕ) (raw : Str) (oracle : ℕ → Outcome),
        max_consecutive_errors ≤ c → (pyStrip raw).isEmpty = false →
        (loopStep c (LoopEvent.line raw oracle)).2 = true ∨
        (loopStep c (LoopEvent.line raw oracle)).1 = 0) ∧
    (∀ (c : ℕ) (raw : Str) (oracle : ℕ → Outcome),
        (pyStrip raw).isEmpty = true →
        loopStep c (LoopEvent.line raw oracle) = (c, false)) := by
  refine ⟨?_, ?_, ?_, ?_⟩
  · intro c; rfl
  · intro c hc
    simp [loopStep, decide_eq_true hc]
  · intro c raw oracle hc hne
    cases hp : (parse_sensor_line (pyStrip raw)).1 with
    | none =>
        left
        simp [loopStep, hne, hp, decide_eq_true hc]
    | some d =>
        cases hs : (send_sensor_data oracle MAX_RETRIES).1 with
        | true =>
            right
            simp [loopStep, hne, hp, hs]
        | false =>
            left
            have hc1 : max_consecutive_errors ≤ c + 1 := le_trans hc (by omega)
            simp [loopStep, hne, hp, hs, decide_eq_true hc1]
  · intro c raw oracle he
    simp [loopStep, he]

/-- Witness for the amended C3: at counter 10 a normally completing
no-input iteration exits the loop. -/
theorem claim_C3_breaker_amended_witness :
    loopStep 10 LoopEvent.noInput = (10, true) :=
  claim_C3_breaker_amended.2.1 10 (by decide)

/-- **C9.**  The consecutive-failure counter is reset to 0 by a delivery
success (from any prior value), incremented by a delivery failure, and
left unchanged both when the parser rejects the line and when no input
is available — parse rejection never affects the counter. -/
theorem claim_C9_counter_evolution :
    (∀ (c : ℕ) (raw : Str) (oracle : ℕ → Outcome) (d : SensorReadingCreate),
        (parse_sensor_line (pyStrip raw)).1 = some d →
        (send_sensor_data oracle MAX_RETRIES).1 = true →
        (loopStep c (LoopEvent.line raw oracle)).1 = 0) ∧
    (∀ (c : ℕ) (raw : Str) (oracle : ℕ → Outcome) (d : SensorReadingCreate),
        (parse_sensor_line (pyStrip raw)).1 = some d →
        (send_sensor_data oracle MAX_RETRIES).1 = false →
        (loopStep c (LoopEvent.line raw oracle)).1 = c + 1) ∧
    (∀ (c : ℕ) (raw : Str) (oracle : ℕ → Outcome),
        (parse_sensor_line (pyStrip raw)).1 = none →
        (loopStep c (LoopEvent.line raw oracle)).1 = c) ∧
    (∀ c : ℕ, (loopStep c LoopEvent.noInput).1 = c) := by
  have hkey : ∀ raw : Str, (pyStrip raw).isEmpty = true →
      (parse_sensor_line (pyStrip raw)).1 = none := by
    intro raw he
    have h0 : pyStrip raw = [] := by simpa [List.isEmpty_iff] using he
    rw [h0]
    rfl
  refine ⟨?_, ?_, ?_, ?_⟩
  · intro c raw oracle d hp hs
    cases he : (pyStrip raw).isEmpty with
    | true => rw [hkey raw he] at hp; exact Option.noConfusion hp
    | false => simp [loopStep, he, hp, hs]
  · intro c raw oracle d hp hs
    cases he : (pyStrip raw).isEmpty with
    | true => rw [hkey raw he] at hp; exact Option.noConfusion hp
    | false => simp [loopStep, he, hp, hs]
  · intro c raw oracle hp
    cases he : (pyStrip raw).isEmpty with
    | true => simp [loopStep, he]
    | false => simp [loopStep, he, hp]
  · intro c; rfl

/-- Witness for C9: a successful delivery of a parsed line resets the
counter from 5 to 0. -/
theorem claim_C9_counter_evolution_witness :
    (loopStep 5 (LoopEvent.line (mkLine ['7'] ['1'] ['1'])
        (fun _ => Outcome.status 200))).1 = 0 :=
  claim_C9_counter_evolution.1 5 (mkLine ['7'] ['1'] ['1'])
    (fun _ => Outcome.status 200) ⟨7, 1, 1⟩ (by decide) (by decide)

end Aquawatch
